import Mathlib

/-!
Verification development for the `godot-whisper` audio pipeline.

Shallow embedding conventions:
* `f32`/`f64` sample values and intermediate arithmetic are modelled by exact
  rationals (`ℚ`).  Float literals such as `0.015` become the corresponding
  rational literal, `x.sqrt() < t` (with `x ≥ 0 ≤ t`) becomes `x < t ^ 2`,
  `f.round()` on nonnegative values becomes `round : ℚ → ℤ`, and `as usize`
  casts of nonnegative values become `Int.toNat ∘ Int.floor`.
* Bytes are natural numbers (`< 256` on the wire); `u16::from_le_bytes [b0, b1]`
  is `b0 + 256 * b1`.
* The external `opus2` encoder/decoder and `whisper_rs` engine are oracles:
  arbitrary state-passing functions supplied as parameters, returning either a
  result or an error, exactly mirroring the information flow at each call site.
* Fallible Rust functions returning `Result` become `Except`.
-/

namespace GodotWhisper

/-- A byte of the wire format (values are `< 256` for real wire data). -/
abbrev Byte := Nat

/-! ## src/codec.rs — decoding -/

/-- Oracle for `opus2::Decoder::decode_float(packet, &mut pcm, false)`
(the decoder retains adaptive state `σ` across calls):
given the decoder state, the packet bytes and the pcm buffer capacity
(`frame_size * 2`), it returns the successor decoder state together with
`some (decoded_frames, pcm)` — `pcm` being the buffer contents after the call —
or `none` when the packet fails to decode. -/
def OpusDecodeFn (σ : Type) : Type :=
  σ → List Byte → Nat → σ × Option (Nat × List ℚ)

/-- The `for packet in packets` loop of `decode_opus_packets_to_stereo`
(src/codec.rs:108-115), threading the decoder state and accumulating output.
On `Ok(decoded_frames)` the code appends `pcm[..decoded_frames * 2]`; on
`Err(_)` it appends `frame_size * 2` zero samples. -/
def decodePacketsLoop {σ : Type} (d : OpusDecodeFn σ) (s : σ)
    (packets : List (List Byte)) (frame_size : Nat) : σ × List ℚ :=
  match packets with
  | [] => (s, [])
  | packet :: rest =>
    let step := d s packet (frame_size * 2)
    let block : List ℚ :=
      match step.2 with
      | some pr => pr.2.take (pr.1 * 2)
      | none => List.replicate (frame_size * 2) 0
    let next := decodePacketsLoop d step.1 rest frame_size
    (next.1, block ++ next.2)

/-- `decode_opus_packets_to_stereo` (src/codec.rs:100-118).  `dnew` is the
oracle for `Decoder::new(sample_rate, Channels::Stereo)` (the only fallible
step); the body then runs the per-packet loop and returns `Ok`. -/
def decode_opus_packets_to_stereo {σ : Type} (dnew : Nat → Except String σ)
    (d : OpusDecodeFn σ) (packets : List (List Byte)) (sample_rate : Nat)
    (frame_size : Nat) : Except String (List ℚ) := do
  let s ← dnew sample_rate
  pure (decodePacketsLoop d s packets frame_size).2

/-- The `while offset + 2 <= opus_data.len()` loop of `decode_opus_to_stereo`
(src/codec.rs:43-63), expressed on the not-yet-consumed bytes: read a
`u16` little-endian length, stop (`break`) if fewer bytes than the declared
length remain, otherwise decode that packet (silence on failure) and continue
after it. -/
def decodeFramedLoop {σ : Type} (d : OpusDecodeFn σ) (s : σ)
    (opus_data : List Byte) (frame_size : Nat) : σ × List ℚ :=
  match opus_data with
  | b0 :: b1 :: rest =>
    let packet_len := b0 + 256 * b1
    if packet_len ≤ rest.length then
      let packet := rest.take packet_len
      let step := d s packet (frame_size * 2)
      let block : List ℚ :=
        match step.2 with
        | some pr => pr.2.take (pr.1 * 2)
        | none => List.replicate (frame_size * 2) 0
      let next := decodeFramedLoop d step.1 (rest.drop packet_len) frame_size
      (next.1, block ++ next.2)
    else (s, [])
  | _ => (s, [])
termination_by opus_data.length
decreasing_by
  simp only [List.length_cons, List.length_drop]
  omega

/-- `decode_opus_to_stereo` (src/codec.rs:37-66): the decoder is passed in by
the caller, the body is the framed loop, and the function ends with
`Ok(output)` — no error is ever constructed. -/
def decode_opus_to_stereo {σ : Type} (d : OpusDecodeFn σ) (s : σ)
    (opus_data : List Byte) (_sample_rate : Nat) (frame_size : Nat) :
    Except String (List ℚ) :=
  Except.ok (decodeFramedLoop d s opus_data frame_size).2

/-- The wire representation of a packet sequence: each packet prefixed by its
length as a `u16` little-endian pair (`(encoded_len as u16).to_le_bytes()`,
src/codec.rs:29). -/
def frameBytes (packets : List (List Byte)) : List Byte :=
  packets.flatMap fun p => p.length % 256 :: p.length / 256 % 256 :: p

/-- A byte tail on which the framed-decode loop stops: fewer than 2 bytes for
a length, or fewer remaining bytes than the declared length. -/
def incompleteTuple : List Byte → Bool
  | b0 :: b1 :: rest => decide (rest.length < b0 + 256 * b1)
  | _ => true

/-! ## src/codec.rs — validation and encoding -/

/-- The error cases of `validate_input` plus a constructor for errors bubbled
up from the `opus2` library.  The Rust code uses boxed string errors
("Invalid sample rate", "Invalid frame size", "Stereo input must be
interleaved"); they are represented by the first three constructors. -/
inductive EncError where
  | invalidRate
  | invalidFrameSize
  | oddLength
  | opus (msg : String)
deriving DecidableEq

/-- Whether an error comes from `validate_input` (an invalid-audio-parameters
error) rather than from the opus library. -/
def EncError.isValidation : EncError → Bool
  | .opus _ => false
  | _ => true

/-- `get_valid_frame_sizes` (src/codec.rs:142-151). -/
def get_valid_frame_sizes (sample_rate : Nat) : List Nat :=
  match sample_rate with
  | 48000 => [120, 240, 480, 960, 1920, 2880]
  | 24000 => [60, 120, 240, 480, 960, 1440]
  | 16000 => [40, 80, 160, 320, 640, 960]
  | 12000 => [30, 60, 120, 240, 480, 720]
  | 8000 => [20, 40, 80, 160, 320, 480]
  | _ => []

/-- `validate_input` (src/codec.rs:121-139). -/
def validate_input (stereo : List ℚ) (sample_rate : Nat) (frame_size : Nat) :
    Except EncError Unit :=
  if ¬(sample_rate = 8000 ∨ sample_rate = 12000 ∨ sample_rate = 16000 ∨
      sample_rate = 24000 ∨ sample_rate = 48000) then
    Except.error EncError.invalidRate
  else if frame_size ∉ get_valid_frame_sizes sample_rate then
    Except.error EncError.invalidFrameSize
  else if stereo.length % 2 ≠ 0 then
    Except.error EncError.oddLength
  else
    Except.ok ()

/-- Oracle for `opus2::Encoder::encode_float(frame, &mut buf)`: given encoder
state and one frame of samples it returns the successor state and either the
encoded bytes (`buf[..encoded_len]`) or an error. -/
def OpusEncodeFn (τ : Type) : Type :=
  τ → List ℚ → τ × Except String (List Byte)

/-- The exact non-overlapping full chunks of `frame_size * 2` samples that the
encode loops visit (`for frame_idx in 0..total_frames` in
`encode_stereo_to_opus`; `chunks` with the partial-chunk `continue` in
`encode_stereo_to_opus_packets`). -/
def frameChunks (stereo : List ℚ) (frame_size : Nat) : List (List ℚ) :=
  (List.range (stereo.length / (frame_size * 2))).map fun frame_idx =>
    (stereo.drop (frame_idx * (frame_size * 2))).take (frame_size * 2)

/-- The frame loop of `encode_stereo_to_opus` (src/codec.rs:22-31): encode each
frame, propagate encoder errors with `?`, and append
`(encoded_len as u16).to_le_bytes()` followed by the encoded bytes. -/
def encodeFramedLoop {τ : Type} (enc : OpusEncodeFn τ) (t : τ)
    (frames : List (List ℚ)) : Except String (List Byte) :=
  match frames with
  | [] => Except.ok []
  | f :: rest =>
    match enc t f with
    | (_, Except.error e) => Except.error e
    | (t1, Except.ok bytes) =>
      match encodeFramedLoop enc t1 rest with
      | Except.error e => Except.error e
      | Except.ok out =>
        Except.ok ((bytes.length % 256 :: bytes.length / 256 % 256 :: bytes)
          ++ out)

/-- `encode_stereo_to_opus` (src/codec.rs:6-34): validate first, then the three
encoder-configuration calls (`set_bitrate`, `set_bandwidth`, `set_signal`,
modelled by their oracle results), then the frame loop; each `?` is the
explicit error-propagating match. -/
def encode_stereo_to_opus {τ : Type} (enc : OpusEncodeFn τ)
    (cfgBitrate cfgBandwidth cfgSignal : Except String Unit) (encoder : τ)
    (stereo : List ℚ) (sample_rate : Nat) (frame_size : Nat) :
    Except EncError (List Byte) :=
  match validate_input stereo sample_rate frame_size with
  | Except.error e => Except.error e
  | Except.ok _ =>
    match cfgBitrate with
    | Except.error e => Except.error (EncError.opus e)
    | Except.ok _ =>
      match cfgBandwidth with
      | Except.error e => Except.error (EncError.opus e)
      | Except.ok _ =>
        match cfgSignal with
        | Except.error e => Except.error (EncError.opus e)
        | Except.ok _ =>
          match encodeFramedLoop enc encoder (frameChunks stereo frame_size) with
          | Except.error e => Except.error (EncError.opus e)
          | Except.ok out => Except.ok out

/-- The chunk loop of `encode_stereo_to_opus_packets` (src/codec.rs:84-94):
encode each full chunk and collect the packets. -/
def encodePacketsEncLoop {τ : Type} (enc : OpusEncodeFn τ) (t : τ)
    (frames : List (List ℚ)) : Except String (List (List Byte)) :=
  match frames with
  | [] => Except.ok []
  | f :: rest =>
    match enc t f with
    | (_, Except.error e) => Except.error e
    | (t1, Except.ok bytes) =>
      match encodePacketsEncLoop enc t1 rest with
      | Except.error e => Except.error e
      | Except.ok out => Except.ok (bytes :: out)

/-- `encode_stereo_to_opus_packets` (src/codec.rs:69-97): validate first, then
`Encoder::new` (oracle `enew`), the three configuration calls, then the chunk
loop. -/
def encode_stereo_to_opus_packets {τ : Type} (enew : Nat → Except String τ)
    (enc : OpusEncodeFn τ)
    (cfgBitrate cfgBandwidth cfgSignal : Except String Unit)
    (stereo : List ℚ) (sample_rate : Nat) (frame_size : Nat) :
    Except EncError (List (List Byte)) :=
  match validate_input stereo sample_rate frame_size with
  | Except.error e => Except.error e
  | Except.ok _ =>
    match enew sample_rate with
    | Except.error e => Except.error (EncError.opus e)
    | Except.ok encoder =>
      match cfgBitrate with
      | Except.error e => Except.error (EncError.opus e)
      | Except.ok _ =>
        match cfgBandwidth with
        | Except.error e => Except.error (EncError.opus e)
        | Except.ok _ =>
          match cfgSignal with
          | Except.error e => Except.error (EncError.opus e)
          | Except.ok _ =>
            match encodePacketsEncLoop enc encoder (frameChunks stereo frame_size) with
            | Except.error e => Except.error (EncError.opus e)
            | Except.ok out => Except.ok out

/-- The invalid-parameter condition guarded by `validate_input`: unsupported
sample rate, frame size outside the rate's legal set, or input length not
divisible by the channel count 2. -/
def invalidParams (stereo : List ℚ) (sample_rate : Nat) (frame_size : Nat) :
    Prop :=
  ¬(sample_rate = 8000 ∨ sample_rate = 12000 ∨ sample_rate = 16000 ∨
      sample_rate = 24000 ∨ sample_rate = 48000) ∨
  frame_size ∉ get_valid_frame_sizes sample_rate ∨
  stereo.length % 2 ≠ 0

instance (stereo : List ℚ) (sr fs : Nat) : Decidable (invalidParams stereo sr fs) := by
  unfold invalidParams
  infer_instance

/-! ## src/runtime.rs -/

/-- The initial value of the process-wide flag:
`AtomicBool::new(false)` (src/runtime.rs:11). -/
def Runtime.initialRunning : Bool := false

/-- `Runtime::free()` (src/runtime.rs:32-36): it stores `false` into the
shared flag, whatever its current value. -/
def Runtime.free (_running : Bool) : Bool := false

/-- The transcription worker's loop condition
`while !running.load(Ordering::Relaxed)` (src/whisper.rs:135): the loop body
runs while this is `true`. -/
def workerLoopCondition (running : Bool) : Bool := !running

/-! ## src/whisper.rs — voice-activity segmenter -/

/-- `silence_threshold = 0.015` (src/whisper.rs:130). -/
def silence_threshold : ℚ := 15 / 1000

/-- `silence_hold = 2048 * 2` (src/whisper.rs:131). -/
def silence_hold : Nat := 2048 * 2

/-- `silence_check_tail = 512` (src/whisper.rs:132). -/
def silence_check_tail : Nat := 512

/-- `WhisperKeywordSpotter::is_silence` (src/whisper.rs:84-91): empty input is
silent; otherwise the RMS over the whole slice is compared with the threshold.
`sqrt (Σ s² / n) < t` is modelled as `Σ s² / n < t ^ 2` (equivalent for the
nonnegative radicand and the positive threshold `0.015` in use). -/
def is_silence (samples : List ℚ) (threshold : ℚ) : Bool :=
  if samples.isEmpty then true
  else decide ((samples.map fun s => s * s).sum / (samples.length : ℚ) < threshold ^ 2)

/-- The worker-loop state that survives between iterations of the segmenter
loop (src/whisper.rs:128-133): the voice buffer and the consecutive-silent
sample counter. -/
structure SegState where
  buffer : List ℚ
  silence_samples : Nat
deriving DecidableEq

/-- What one iteration of the segmenter loop does with its received block. -/
inductive SegAction where
  /-- The `continue` at src/whisper.rs:158: keep accumulating. -/
  | accumulate
  /-- The whole-buffer-silent branch (src/whisper.rs:165-169): drop the buffer. -/
  | discard
  /-- A call to `spotter.detect` on the accumulated buffer (src/whisper.rs:171). -/
  | transcribe (samples : List ℚ)
deriving DecidableEq

/-- The trailing window the silence check looks at (src/whisper.rs:140-144):
the last `silence_check_tail` samples of the incoming block, or the whole
block when it is shorter. -/
def segTailCheck (bytes : List ℚ) : List ℚ :=
  if silence_check_tail < bytes.length then
    bytes.drop (bytes.length - silence_check_tail)
  else bytes

/-- The consecutive-silent-sample counter after processing the incoming block
(src/whisper.rs:146-152): incremented by the block length when the tail is
silent, reset to zero otherwise. -/
def segUpdatedCounter (s : SegState) (bytes : List ℚ) : Nat :=
  if is_silence (segTailCheck bytes) silence_threshold then
    s.silence_samples + bytes.length
  else 0

/-- The silence-hold condition of src/whisper.rs:154: the updated counter has
reached the hold length and the accumulated buffer is non-empty. -/
def segHoldFired (s : SegState) (bytes : List ℚ) : Bool :=
  decide (silence_hold ≤ segUpdatedCounter s bytes) &&
    !(s.buffer ++ bytes).isEmpty

/-- One iteration of the segmenter worker loop body after a successful
`rx.recv()` (src/whisper.rs:137-183): extend the buffer, update the silence
counter, gate on hold-fired / minimum length, re-check silence over the whole
buffer, and either keep accumulating, discard the buffer, or transcribe it. -/
def stepSeg (s : SegState) (bytes : List ℚ) : SegState × SegAction :=
  let buffer := s.buffer ++ bytes
  let counter :=
    if segHoldFired s bytes then 0 else segUpdatedCounter s bytes
  if segHoldFired s bytes = false ∧ buffer.length < 16000 * 3 then
    (⟨buffer, counter⟩, SegAction.accumulate)
  else if is_silence buffer silence_threshold then
    (⟨[], 0⟩, SegAction.discard)
  else
    (⟨[], counter⟩, SegAction.transcribe buffer)

/-! ## src/microphone.rs — linear resamplers -/

/-- `ratio = from_rate as f64 / to_rate as f64` (src/microphone.rs:150,181). -/
def lin_ratio (from_rate to_rate : Nat) : ℚ :=
  (from_rate : ℚ) / (to_rate : ℚ)

/-- `output_frames = (input_frames as f64 / ratio).round() as usize`
(src/microphone.rs:151-152), with `input_frames = samples.len() / CHANNELS`. -/
def stereo_output_frames (samples : List ℚ) (from_rate to_rate : Nat) : Nat :=
  (round (((samples.length / 2 : Nat) : ℚ) / lin_ratio from_rate to_rate)).toNat

/-- `idx = pos.floor() as usize` for output index `i`
(src/microphone.rs:157-158,186-187), with `pos = i as f64 * ratio`. -/
def lin_idx (from_rate to_rate i : Nat) : Nat :=
  (⌊(i : ℚ) * lin_ratio from_rate to_rate⌋).toNat

/-- `frac = pos - idx` (src/microphone.rs:159,190). -/
def lin_frac (from_rate to_rate i : Nat) : ℚ :=
  (i : ℚ) * lin_ratio from_rate to_rate - (lin_idx from_rate to_rate i : ℚ)

/-- The loop body of `resample_linear_stereo` for output frame `i`, channel
`ch` (src/microphone.rs:156-169): `samples.get(..).unwrap_or(0.0)` is
`getD _ 0`, `samples.get(..).unwrap_or(s0)` is `(samples[..]?).getD s0`. -/
def stereo_val (samples : List ℚ) (from_rate to_rate : Nat) (i ch : Nat) : ℚ :=
  let idx : Nat := lin_idx from_rate to_rate i
  let frac : ℚ := lin_frac from_rate to_rate i
  let s0 := samples.getD (idx * 2 + ch) 0
  let s1 := (samples[(idx + 1) * 2 + ch]?).getD s0
  s0 * (1 - frac) + s1 * frac

/-- `Microphone::resample_linear_stereo` (src/microphone.rs:144-173). -/
def resample_linear_stereo (samples : List ℚ) (from_rate to_rate : Nat) :
    List ℚ :=
  if from_rate = to_rate then samples
  else
    (List.range (stereo_output_frames samples from_rate to_rate)).flatMap
      fun i => (List.range 2).map (stereo_val samples from_rate to_rate i)

/-- `output_len = (samples.len() as f32 / ratio) as usize`
(src/microphone.rs:182): a float-to-integer cast truncates, i.e. floors for
nonnegative values — note, no rounding here. -/
def mono_output_len (samples : List ℚ) (from_rate to_rate : Nat) : Nat :=
  (⌊(samples.length : ℚ) / lin_ratio from_rate to_rate⌋).toNat

/-- The loop body of `resample_linear` for output index `i`
(src/microphone.rs:185-196): pushes one interpolated sample when both
bracketing samples exist, the clamped last sample when only `idx` is in
range, and nothing at all otherwise. -/
def mono_block (samples : List ℚ) (from_rate to_rate : Nat) (i : Nat) :
    List ℚ :=
  let idx : Nat := lin_idx from_rate to_rate i
  if idx + 1 < samples.length then
    let frac : ℚ := lin_frac from_rate to_rate i
    [samples.getD idx 0 * (1 - frac) + samples.getD (idx + 1) 0 * frac]
  else if idx < samples.length then
    [samples.getD idx 0]
  else []

/-- `Microphone::resample_linear` (src/microphone.rs:176-199). -/
def resample_linear (samples : List ℚ) (from_rate to_rate : Nat) : List ℚ :=
  if from_rate = to_rate then samples
  else
    (List.range (mono_output_len samples from_rate to_rate)).flatMap
      (mono_block samples from_rate to_rate)

/-- The value the mono loop pushes when `idx` is in range (which, as proved
below, is always the case for `i < mono_output_len`). -/
def mono_val (samples : List ℚ) (from_rate to_rate : Nat) (i : Nat) : ℚ :=
  let idx : Nat := lin_idx from_rate to_rate i
  if idx + 1 < samples.length then
    let frac : ℚ := lin_frac from_rate to_rate i
    samples.getD idx 0 * (1 - frac) + samples.getD (idx + 1) 0 * frac
  else samples.getD idx 0

end GodotWhisper

namespace GodotWhisper

/-! ## Codec lemmas -/

/-- The per-packet decode loop is compositional over packet-list append. -/
lemma decodePacketsLoop_append {σ : Type} (d : OpusDecodeFn σ) (s : σ)
    (ps qs : List (List Byte)) (fs : Nat) :
    decodePacketsLoop d s (ps ++ qs) fs =
      ((decodePacketsLoop d (decodePacketsLoop d s ps fs).1 qs fs).1,
       (decodePacketsLoop d s ps fs).2 ++
         (decodePacketsLoop d (decodePacketsLoop d s ps fs).1 qs fs).2) := by
  induction ps generalizing s with
  | nil => simp [decodePacketsLoop]
  | cons p ps ih =>
    simp only [List.cons_append, decodePacketsLoop, List.append_eq]
    rw [ih]
    simp [List.append_assoc]

/-- On an incomplete trailing tuple the framed loop stops, leaving the decoder
state unchanged and producing no further output. -/
lemma decodeFramedLoop_stop {σ : Type} (d : OpusDecodeFn σ) (s : σ)
    (t : List Byte) (fs : Nat) (ht : incompleteTuple t = true) :
    decodeFramedLoop d s t fs = (s, []) := by
  match t with
  | [] => simp [decodeFramedLoop]
  | [b] => simp [decodeFramedLoop]
  | b0 :: b1 :: rest =>
    simp only [incompleteTuple, decide_eq_true_eq] at ht
    rw [decodeFramedLoop]
    simp [Nat.not_le.mpr ht]

/-- The framed-stream loop run on length-prefixed packets followed by an
incomplete tail behaves exactly like the per-packet loop on those packets:
each complete tuple is decoded and the truncated trailing tuple is
discarded. -/
lemma decodeFramedLoop_frameBytes {σ : Type} (d : OpusDecodeFn σ) (fs : Nat)
    (ps : List (List Byte)) (t : List Byte) (ht : incompleteTuple t = true)
    (hlen : ∀ p ∈ ps, p.length < 65536) :
    ∀ s : σ, decodeFramedLoop d s (frameBytes ps ++ t) fs =
      decodePacketsLoop d s ps fs := by
  induction ps with
  | nil =>
    intro s
    simpa [frameBytes, decodePacketsLoop] using decodeFramedLoop_stop d s t fs ht
  | cons p ps ih =>
    intro s
    have hp : p.length < 65536 := hlen p (by simp)
    have hkey : p.length % 256 + 256 * (p.length / 256 % 256) = p.length := by
      omega
    have hbytes : frameBytes (p :: ps) ++ t =
        p.length % 256 :: p.length / 256 % 256 :: (p ++ (frameBytes ps ++ t)) := by
      simp [frameBytes]
    rw [hbytes, decodeFramedLoop]
    rw [hkey]
    have hle : p.length ≤ (p ++ (frameBytes ps ++ t)).length := by
      simp
    rw [if_pos hle, List.take_left, List.drop_left]
    simp only [decodePacketsLoop]
    rw [ih (fun q hq => hlen q (by simp [hq]))]

/-- C4: the framed-stream decoder parses its input as consecutive
(u16-little-endian length, packet bytes) tuples, decodes every complete tuple,
and stops at the first incomplete tuple — fewer than 2 remaining bytes for a
length, or fewer remaining bytes than the declared length — discarding that
truncated trailing tuple without returning an error. -/
theorem c4_framed_parse_stops_at_incomplete_tuple {σ : Type}
    (d : OpusDecodeFn σ) (s : σ) (ps : List (List Byte)) (t : List Byte)
    (sample_rate frame_size : Nat) (hlen : ∀ p ∈ ps, p.length < 65536)
    (ht : incompleteTuple t = true) :
    decode_opus_to_stereo d s (frameBytes ps ++ t) sample_rate frame_size =
      Except.ok (decodePacketsLoop d s ps frame_size).2 := by
  unfold decode_opus_to_stereo
  rw [decodeFramedLoop_frameBytes d frame_size ps t ht hlen]

/-- Witness for C4 at a concrete input: one complete tuple for packet `[7]`
followed by the truncated tail `[5]`, with a decoder oracle that always
fails. -/
theorem c4_witness :
    decode_opus_to_stereo (fun (s : Unit) _ _ => (s, none)) ()
      (frameBytes [[7]] ++ [5]) 48000 1 =
      Except.ok
        (decodePacketsLoop (fun (s : Unit) _ _ => (s, none)) () [[7]] 1).2 :=
  c4_framed_parse_stops_at_incomplete_tuple (fun (s : Unit) _ _ => (s, none))
    () [[7]] [5] 48000 1 (by decide) (by decide)

/-- C1: when a packet fails to decode, neither decoder propagates the error:
in both `decode_opus_packets_to_stereo` and (via the wire format)
`decode_opus_to_stereo`, the failing packet contributes exactly
`frame_size * 2` zero samples in its position and the overall result is still
`Ok`, full-length rather than truncated. -/
theorem c1_decode_failure_substitutes_silence {σ : Type} (d : OpusDecodeFn σ)
    (dnew : Nat → Except String σ) (s : σ) (ps rest : List (List Byte))
    (pkt : List Byte) (sample_rate frame_size : Nat)
    (hnew : dnew sample_rate = Except.ok s)
    (hfail : (d (decodePacketsLoop d s ps frame_size).1 pkt
      (frame_size * 2)).2 = none)
    (hlen : ∀ p ∈ ps ++ pkt :: rest, p.length < 65536) :
    decode_opus_packets_to_stereo dnew d (ps ++ pkt :: rest) sample_rate
        frame_size =
      Except.ok ((decodePacketsLoop d s ps frame_size).2 ++
        (List.replicate (frame_size * 2) 0 ++
          (decodePacketsLoop d
            (d (decodePacketsLoop d s ps frame_size).1 pkt
              (frame_size * 2)).1 rest frame_size).2)) ∧
    decode_opus_to_stereo d s (frameBytes (ps ++ pkt :: rest)) sample_rate
        frame_size =
      Except.ok ((decodePacketsLoop d s ps frame_size).2 ++
        (List.replicate (frame_size * 2) 0 ++
          (decodePacketsLoop d
            (d (decodePacketsLoop d s ps frame_size).1 pkt
              (frame_size * 2)).1 rest frame_size).2)) := by
  have hloop : decodePacketsLoop d s (ps ++ pkt :: rest) frame_size =
      ((decodePacketsLoop d
          (d (decodePacketsLoop d s ps frame_size).1 pkt
            (frame_size * 2)).1 rest frame_size).1,
       (decodePacketsLoop d s ps frame_size).2 ++
        (List.replicate (frame_size * 2) 0 ++
          (decodePacketsLoop d
            (d (decodePacketsLoop d s ps frame_size).1 pkt
              (frame_size * 2)).1 rest frame_size).2)) := by
    rw [decodePacketsLoop_append]
    conv_lhs => rw [decodePacketsLoop]
    rw [hfail]
  constructor
  · simp [decode_opus_packets_to_stereo, hnew, hloop]
  · have hframe := decodeFramedLoop_frameBytes d frame_size
      (ps ++ pkt :: rest) [] rfl hlen s
    unfold decode_opus_to_stereo
    rw [← List.append_nil (frameBytes (ps ++ pkt :: rest)), hframe, hloop]

/-- Witness for C1 at a concrete input: a single (empty) packet and a decoder
oracle that always fails; the output is one frame of silence. -/
theorem c1_witness :
    decode_opus_packets_to_stereo (fun _ => Except.ok ())
      (fun (s : Unit) _ _ => (s, none)) [[]] 48000 1 = Except.ok [0, 0] := by
  have h := (c1_decode_failure_substitutes_silence
    (fun (s : Unit) _ _ => (s, none)) (fun _ => Except.ok ()) () [] [] []
    48000 1 rfl rfl (by decide)).1
  simpa using h

/-- C10: the framed-stream decoder `decode_opus_to_stereo` returns `Ok` for
every decoder state, byte sequence, sample rate and frame size: its body
never constructs the error branch of its `Result` type, so unwrapping callers
(`Whisper::decode_audio`, `OpusDecoderNode::decode_audio`) cannot observe an
`Err` on malformed wire data. -/
theorem c10_framed_decoder_never_errors {σ : Type} (d : OpusDecodeFn σ)
    (s : σ) (opus_data : List Byte) (sample_rate frame_size : Nat) :
    ∃ out, decode_opus_to_stereo d s opus_data sample_rate frame_size =
      Except.ok out :=
  ⟨(decodeFramedLoop d s opus_data frame_size).2, rfl⟩

/-! ## Runtime lifecycle (src/runtime.rs) -/

/-- C2 (code behaviour at the failing input): `Runtime::free()` stores `false`
into the flag, but the worker loop runs `while !running.load(..)`, so after
`free()` the loop condition is `true` — the worker keeps looping instead of
exiting.  This holds from the initial flag value and from every flag value. -/
theorem c2_free_leaves_worker_loop_running :
    workerLoopCondition (Runtime.free Runtime.initialRunning) = true ∧
    ∀ b : Bool, workerLoopCondition (Runtime.free b) = true :=
  ⟨rfl, fun _ => rfl⟩

end GodotWhisper

namespace GodotWhisper

/-! ## Validation lemmas (src/codec.rs) -/

/-- With invalid parameters, `validate_input` produces one of the three
invalid-audio-parameters errors. -/
lemma validate_input_invalid {stereo : List ℚ} {sr fs : Nat}
    (h : invalidParams stereo sr fs) :
    ∃ e, validate_input stereo sr fs = Except.error e ∧
      e.isValidation = true := by
  unfold validate_input
  by_cases hA : sr = 8000 ∨ sr = 12000 ∨ sr = 16000 ∨ sr = 24000 ∨ sr = 48000
  · rw [if_neg (not_not_intro hA)]
    by_cases hB : fs ∈ get_valid_frame_sizes sr
    · rw [if_neg (not_not_intro hB)]
      have hC : stereo.length % 2 ≠ 0 := by
        unfold invalidParams at h
        tauto
      rw [if_pos hC]
      exact ⟨_, rfl, rfl⟩
    · rw [if_pos hB]
      exact ⟨_, rfl, rfl⟩
  · rw [if_pos hA]
    exact ⟨_, rfl, rfl⟩

/-- With valid parameters, `validate_input` succeeds. -/
lemma validate_input_valid {stereo : List ℚ} {sr fs : Nat}
    (h : ¬ invalidParams stereo sr fs) :
    validate_input stereo sr fs = Except.ok () := by
  unfold invalidParams at h
  push_neg at h
  obtain ⟨h1, h2, h3⟩ := h
  unfold validate_input
  rw [if_neg (not_not_intro h1), if_neg (not_not_intro h2),
    if_neg (not_not_intro h3)]

/-- Once validation has passed, every error `encode_stereo_to_opus` can
return comes from the opus library (it is `.opus`-tagged, not a validation
error). -/
lemma encode_stereo_to_opus_error_of_valid {τ : Type} (enc : OpusEncodeFn τ)
    (cfg1 cfg2 cfg3 : Except String Unit) (encoder : τ) (stereo : List ℚ)
    (sr fs : Nat) (hval : ¬ invalidParams stereo sr fs) (e : EncError)
    (he : encode_stereo_to_opus enc cfg1 cfg2 cfg3 encoder stereo sr fs =
      Except.error e) :
    e.isValidation = false := by
  unfold encode_stereo_to_opus at he
  rw [validate_input_valid hval] at he
  cases cfg1 <;> cases cfg2 <;> cases cfg3 <;>
    cases hE : encodeFramedLoop enc encoder (frameChunks stereo fs) <;>
      simp_all [EncError.isValidation] <;> (subst he; rfl)

/-- Once validation has passed, every error `encode_stereo_to_opus_packets`
can return comes from the opus library. -/
lemma encode_stereo_to_opus_packets_error_of_valid {τ : Type}
    (enew : Nat → Except String τ) (enc : OpusEncodeFn τ)
    (cfg1 cfg2 cfg3 : Except String Unit) (stereo : List ℚ) (sr fs : Nat)
    (hval : ¬ invalidParams stereo sr fs) (e : EncError)
    (he : encode_stereo_to_opus_packets enew enc cfg1 cfg2 cfg3 stereo sr fs =
      Except.error e) :
    e.isValidation = false := by
  unfold encode_stereo_to_opus_packets at he
  rw [validate_input_valid hval] at he
  cases henew : enew sr with
  | error a =>
    rw [henew] at he
    simp at he
    subst he
    rfl
  | ok encoder =>
    rw [henew] at he
    cases cfg1 <;> cases cfg2 <;> cases cfg3 <;>
      cases hE : encodePacketsEncLoop enc encoder (frameChunks stereo fs) <;>
        simp_all [EncError.isValidation] <;> (subst he; rfl)

/-- With invalid parameters, both encoders fail with the `validate_input`
error before touching any encoder oracle. -/
lemma encode_invalid_eq_validate {τ : Type} (enc : OpusEncodeFn τ)
    (enew : Nat → Except String τ) (cfg1 cfg2 cfg3 : Except String Unit)
    (encoder : τ) (stereo : List ℚ) (sr fs : Nat) (e : EncError)
    (hv : validate_input stereo sr fs = Except.error e) :
    encode_stereo_to_opus enc cfg1 cfg2 cfg3 encoder stereo sr fs =
      Except.error e ∧
    encode_stereo_to_opus_packets enew enc cfg1 cfg2 cfg3 stereo sr fs =
      Except.error e := by
  constructor
  · unfold encode_stereo_to_opus
    rw [hv]
  · unfold encode_stereo_to_opus_packets
    rw [hv]

/-- C3: both encoders return an invalid-audio-parameters error exactly when
the sample rate is outside {8000, 12000, 16000, 24000, 48000}, or the frame
size is not in that rate's legal set, or the input length is not divisible by
the channel count 2; and when the parameters are invalid the result is
already determined before any encoding — it does not depend on the encoder
oracles at all. -/
theorem c3_encode_validation_iff {τ : Type} (enc : OpusEncodeFn τ)
    (enew : Nat → Except String τ) (cfg1 cfg2 cfg3 : Except String Unit)
    (encoder : τ) (stereo : List ℚ) (sample_rate frame_size : Nat) :
    ((∃ e, encode_stereo_to_opus enc cfg1 cfg2 cfg3 encoder stereo
        sample_rate frame_size = Except.error e ∧ e.isValidation = true) ↔
      invalidParams stereo sample_rate frame_size) ∧
    ((∃ e, encode_stereo_to_opus_packets enew enc cfg1 cfg2 cfg3 stereo
        sample_rate frame_size = Except.error e ∧ e.isValidation = true) ↔
      invalidParams stereo sample_rate frame_size) ∧
    (invalidParams stereo sample_rate frame_size →
      ∀ (τ' : Type) (enc' : OpusEncodeFn τ') (enew' : Nat → Except String τ')
        (cfg1' cfg2' cfg3' : Except String Unit) (encoder' : τ'),
        encode_stereo_to_opus enc cfg1 cfg2 cfg3 encoder stereo sample_rate
            frame_size =
          encode_stereo_to_opus enc' cfg1' cfg2' cfg3' encoder' stereo
            sample_rate frame_size ∧
        encode_stereo_to_opus_packets enew enc cfg1 cfg2 cfg3 stereo
            sample_rate frame_size =
          encode_stereo_to_opus_packets enew' enc' cfg1' cfg2' cfg3' stereo
            sample_rate frame_size) := by
  by_cases hinv : invalidParams stereo sample_rate frame_size
  · obtain ⟨e, hv, hval⟩ := validate_input_invalid hinv
    obtain ⟨h1, h2⟩ :=
      encode_invalid_eq_validate enc enew cfg1 cfg2 cfg3 encoder stereo
        sample_rate frame_size e hv
    refine ⟨⟨fun _ => hinv, fun _ => ⟨e, h1, hval⟩⟩,
      ⟨fun _ => hinv, fun _ => ⟨e, h2, hval⟩⟩, fun _ τ' enc' enew' cfg1' cfg2'
        cfg3' encoder' => ?_⟩
    obtain ⟨h1', h2'⟩ :=
      encode_invalid_eq_validate enc' enew' cfg1' cfg2' cfg3' encoder' stereo
        sample_rate frame_size e hv
    exact ⟨h1.trans h1'.symm, h2.trans h2'.symm⟩
  · refine ⟨⟨fun ⟨e, he, hval⟩ => ?_, fun h => absurd h hinv⟩,
      ⟨fun ⟨e, he, hval⟩ => ?_, fun h => absurd h hinv⟩,
      fun h => absurd h hinv⟩
    · exact absurd hval (by
        simp [encode_stereo_to_opus_error_of_valid enc cfg1 cfg2 cfg3 encoder
          stereo sample_rate frame_size hinv e he])
    · exact absurd hval (by
        simp [encode_stereo_to_opus_packets_error_of_valid enew enc cfg1 cfg2
          cfg3 stereo sample_rate frame_size hinv e he])

/-- Witness for C3 at a concrete input: sample rate 44100 is rejected as an
invalid audio parameter by both encoders, for trivial encoder oracles. -/
theorem c3_witness :
    ∃ e, encode_stereo_to_opus (fun (t : Unit) _ => (t, Except.ok []))
      (Except.ok ()) (Except.ok ()) (Except.ok ()) () [0] 44100 480 =
        Except.error e ∧ e.isValidation = true :=
  (c3_encode_validation_iff (fun (t : Unit) _ => (t, Except.ok []))
    (fun _ => Except.ok ()) (Except.ok ()) (Except.ok ()) (Except.ok ()) ()
    [0] 44100 480).1.mpr (by decide)

end GodotWhisper

namespace GodotWhisper

/-! ## Segmenter theorems (src/whisper.rs) -/

/-- C7: a transcription call is attempted in an iteration only if the
accumulated buffer holds at least 3 seconds of 16 kHz audio (48000 samples)
or the silence-hold condition has fired (updated consecutive-silent counter at
the hold length with a non-empty accumulated buffer); and a buffer shorter
than the minimum that is not silence-terminated makes the worker accumulate
without transcribing. -/
theorem c7_transcription_gate (s : SegState) (bytes : List ℚ) :
    (∀ buf, (stepSeg s bytes).2 = SegAction.transcribe buf →
      16000 * 3 ≤ (s.buffer ++ bytes).length ∨
        (silence_hold ≤ segUpdatedCounter s bytes ∧ s.buffer ++ bytes ≠ [])) ∧
    (segHoldFired s bytes = false → (s.buffer ++ bytes).length < 16000 * 3 →
      stepSeg s bytes =
        (⟨s.buffer ++ bytes, segUpdatedCounter s bytes⟩,
          SegAction.accumulate)) := by
  constructor
  · intro buf htr
    simp only [stepSeg] at htr
    split at htr
    · simp at htr
    · case isFalse h =>
      by_cases hh : segHoldFired s bytes = true
      · right
        have hh' := hh
        simp only [segHoldFired, Bool.and_eq_true, decide_eq_true_eq,
          Bool.not_eq_true'] at hh'
        refine ⟨hh'.1, ?_⟩
        intro hnil
        rw [hnil] at hh'
        simp at hh'
      · left
        have hf : segHoldFired s bytes = false := by
          simpa using hh
        exact Nat.le_of_not_lt fun hl => h ⟨hf, hl⟩
  · intro hh hlen
    simp only [stepSeg]
    rw [if_pos ⟨hh, hlen⟩, if_neg (by rw [hh]; simp)]

/-- Witness for C7 at a concrete input: state with buffer `[1]` and silence
counter 4096, receiving the silent block `[0]` — the hold fires and a
transcription attempt happens, so the gate disjunction holds. -/
theorem c7_witness :
    16000 * 3 ≤ (([1] : List ℚ) ++ [0]).length ∨
      (silence_hold ≤ segUpdatedCounter ⟨[1], 4096⟩ [0] ∧
        ([1] : List ℚ) ++ [0] ≠ []) := by
  have h2 : is_silence (segTailCheck [0]) silence_threshold = true := by
    norm_num [segTailCheck, silence_check_tail, is_silence, silence_threshold]
  have h3 : segUpdatedCounter ⟨[1], 4096⟩ [0] = 4097 := by
    simp [segUpdatedCounter, h2]
  have h4 : segHoldFired ⟨[1], 4096⟩ [0] = true := by
    simp [segHoldFired, h3, silence_hold]
  have h5 : is_silence [(1 : ℚ), 0] silence_threshold = false := by
    norm_num [is_silence, silence_threshold, decide_eq_false_iff_not]
  have hstep : (stepSeg ⟨[1], 4096⟩ [0]).2 =
      SegAction.transcribe [(1 : ℚ), 0] := by
    simp [stepSeg, h4, h5]
  exact (c7_transcription_gate ⟨[1], 4096⟩ [0]).1 [(1 : ℚ), 0] hstep

/-- C8: when the whole accumulated buffer is classified as silence by the
RMS check, the iteration never calls the transcription engine on it, and
whenever it is not merely accumulating it discards the buffer, clearing it
and resetting the counter. -/
theorem c8_silent_buffer_is_discarded (s : SegState) (bytes : List ℚ)
    (hsil : is_silence (s.buffer ++ bytes) silence_threshold = true) :
    (∀ buf, (stepSeg s bytes).2 ≠ SegAction.transcribe buf) ∧
    ((stepSeg s bytes).2 ≠ SegAction.accumulate →
      stepSeg s bytes = (⟨[], 0⟩, SegAction.discard)) := by
  simp only [stepSeg]
  split
  · exact ⟨by simp, fun h => absurd rfl h⟩
  · exact ⟨by simp, fun _ => rfl⟩

/-- Witness for C8 at a concrete input: buffer `[0]`, counter 4096, silent
block `[0]` — the accumulated buffer `[0, 0]` is silent. -/
theorem c8_witness :
    (∀ buf, (stepSeg ⟨[0], 4096⟩ [0]).2 ≠ SegAction.transcribe buf) ∧
    ((stepSeg ⟨[0], 4096⟩ [0]).2 ≠ SegAction.accumulate →
      stepSeg ⟨[0], 4096⟩ [0] = (⟨[], 0⟩, SegAction.discard)) :=
  c8_silent_buffer_is_discarded ⟨[0], 4096⟩ [0]
    (by norm_num [is_silence, silence_threshold])

/-- C9 (amended): after a discarded-silence iteration both the buffer and the
counter are reset; after a transcription attempt the buffer is always cleared,
but the counter is reset only when the silence hold fired — on the
minimum-length path it keeps the iteration's updated value, which can be
non-zero. -/
theorem c9_post_state_amended (s : SegState) (bytes : List ℚ) :
    ((stepSeg s bytes).2 = SegAction.discard →
      stepSeg s bytes = (⟨[], 0⟩, SegAction.discard)) ∧
    (∀ buf, (stepSeg s bytes).2 = SegAction.transcribe buf →
      (stepSeg s bytes).1.buffer = [] ∧
      (stepSeg s bytes).1.silence_samples =
        (if segHoldFired s bytes then 0 else segUpdatedCounter s bytes) ∧
      (segHoldFired s bytes = true →
        (stepSeg s bytes).1.silence_samples = 0)) := by
  simp only [stepSeg]
  split
  · exact ⟨by simp, by simp⟩
  · split
    · exact ⟨fun _ => rfl, by simp⟩
    · refine ⟨by simp, fun buf _ => ⟨rfl, rfl, fun hf => ?_⟩⟩
      simp [hf]

/-- Witness for C9's amended statement at a concrete input: a discard
iteration resets both fields. -/
theorem c9_witness :
    stepSeg ⟨[0], 4096⟩ [0] = (⟨[], 0⟩, SegAction.discard) := by
  have h2 : is_silence (segTailCheck [0]) silence_threshold = true := by
    norm_num [segTailCheck, silence_check_tail, is_silence, silence_threshold]
  have h3 : segUpdatedCounter ⟨[0], 4096⟩ [0] = 4097 := by
    simp [segUpdatedCounter, h2]
  have h4 : segHoldFired ⟨[0], 4096⟩ [0] = true := by
    simp [segHoldFired, h3, silence_hold]
  have h5 : is_silence [(0 : ℚ), 0] silence_threshold = true := by
    norm_num [is_silence, silence_threshold]
  have hdisc : (stepSeg ⟨[0], 4096⟩ [0]).2 = SegAction.discard := by
    simp [stepSeg, h4, h5]
  exact (c9_post_state_amended ⟨[0], 4096⟩ [0]).1 hdisc

/-- C9's counterexample: with a loud 48000-sample buffer and counter 1, a
silent one-sample block takes the minimum-length path to a transcription
attempt, after which the buffer is cleared but the silence counter is 2, not
0 — the claim "counter equal to zero after every transcription attempt"
fails. -/
theorem c9_counterexample :
    (stepSeg ⟨List.replicate 48000 (1/2 : ℚ), 1⟩ [0]).2 =
      SegAction.transcribe (List.replicate 48000 (1/2 : ℚ) ++ [0]) ∧
    (stepSeg ⟨List.replicate 48000 (1/2 : ℚ), 1⟩ [0]).1.silence_samples ≠
      0 := by
  have h2 : is_silence (segTailCheck [0]) silence_threshold = true := by
    norm_num [segTailCheck, silence_check_tail, is_silence, silence_threshold]
  have h3 : segUpdatedCounter ⟨List.replicate 48000 (1/2 : ℚ), 1⟩ [0] = 2 := by
    unfold segUpdatedCounter
    rw [h2, if_pos rfl]
    rfl
  have hdec : decide (silence_hold ≤
      segUpdatedCounter ⟨List.replicate 48000 (1/2 : ℚ), 1⟩ [0]) = false := by
    rw [h3]
    simp only [silence_hold, decide_eq_false_iff_not]
    omega
  have h4 : segHoldFired ⟨List.replicate 48000 (1/2 : ℚ), 1⟩ [0] = false := by
    unfold segHoldFired
    rw [hdec, Bool.false_and]
  have hmap : (List.replicate 48000 (1/2 : ℚ) ++ [0]).map (fun s => s * s) =
      List.replicate 48000 (1/4 : ℚ) ++ [0] := by
    rw [List.map_append, List.map_replicate]
    norm_num
  have hsum : ((List.replicate 48000 (1/2 : ℚ) ++ [0]).map
      (fun s => s * s)).sum = 12000 := by
    rw [hmap, List.sum_append, List.sum_replicate, nsmul_eq_mul]
    norm_num
  have hlen : (List.replicate 48000 (1/2 : ℚ) ++ [0]).length = 48001 := by
    rw [List.length_append, List.length_replicate, List.length_cons,
      List.length_nil]
  have hne : (List.replicate 48000 (1/2 : ℚ) ++ [0]).isEmpty = false := by
    rw [List.isEmpty_eq_false_iff_exists_mem]
    exact ⟨0, List.mem_append_right _ (List.mem_singleton.mpr rfl)⟩
  have h5 : is_silence (List.replicate 48000 (1/2 : ℚ) ++ [0])
      silence_threshold = false := by
    unfold is_silence
    rw [if_neg (by rw [hne]; exact Bool.false_ne_true), hsum, hlen]
    simp only [silence_threshold, decide_eq_false_iff_not, not_lt]
    norm_num
  have hcond : ¬(segHoldFired ⟨List.replicate 48000 (1/2 : ℚ), 1⟩ [0] =
      false ∧
      (List.replicate 48000 (1/2 : ℚ) ++ [0]).length < 16000 * 3) := by
    rintro ⟨-, hl⟩
    rw [hlen] at hl
    omega
  have hstep : stepSeg ⟨List.replicate 48000 (1/2 : ℚ), 1⟩ [0] =
      (⟨[], 2⟩, SegAction.transcribe
        (List.replicate 48000 (1/2 : ℚ) ++ [0])) := by
    simp only [stepSeg]
    rw [if_neg hcond, if_neg (by rw [h5]; exact Bool.false_ne_true), h4]
    rw [if_neg (by exact Bool.false_ne_true), h3]
  rw [hstep]
  exact ⟨rfl, by norm_num⟩

end GodotWhisper

namespace GodotWhisper

/-! ## Resampler lemmas (src/microphone.rs) -/

lemma lin_ratio_pos {fr tr : Nat} (hf : 0 < fr) (ht : 0 < tr) :
    0 < lin_ratio fr tr := by
  unfold lin_ratio
  exact div_pos (by exact_mod_cast hf) (by exact_mod_cast ht)

/-- For every stereo output frame index, the floored source position stays
strictly below the number of input frames (the loop never reads a start frame
past the end). -/
lemma stereo_idx_lt (samples : List ℚ) (fr tr : Nat) (hf : 0 < fr)
    (ht : 0 < tr) (i : Nat) (hi : i < stereo_output_frames samples fr tr) :
    lin_idx fr tr i < samples.length / 2 := by
  have hr : 0 < lin_ratio fr tr := lin_ratio_pos hf ht
  unfold stereo_output_frames at hi
  unfold lin_idx
  set r := lin_ratio fr tr with hrdef
  set frames := samples.length / 2 with hframesdef
  have h1 : (i : ℤ) < round ((frames : ℚ) / r) := Int.lt_toNat.mp hi
  have h2 : ((i : ℚ) + 1) ≤ ((round ((frames : ℚ) / r) : ℤ) : ℚ) := by
    exact_mod_cast Int.add_one_le_iff.mpr h1
  have hround : ((round ((frames : ℚ) / r) : ℤ) : ℚ) ≤
      (frames : ℚ) / r + 1 / 2 := by
    rw [round_eq]
    exact Int.floor_le _
  have hile : (i : ℚ) ≤ (frames : ℚ) / r - 1 / 2 := by linarith
  have hmul := mul_le_mul_of_nonneg_right hile hr.le
  rw [sub_mul, div_mul_cancel₀ _ (ne_of_gt hr)] at hmul
  have h3 : (i : ℚ) * r < (frames : ℚ) := by linarith
  have h4 : ⌊(i : ℚ) * r⌋ < ((frames : ℕ) : ℤ) :=
    Int.floor_lt.mpr (by exact_mod_cast h3)
  have h0 : (0 : ℤ) ≤ ⌊(i : ℚ) * r⌋ :=
    Int.floor_nonneg.mpr (mul_nonneg (Nat.cast_nonneg i) hr.le)
  omega

/-- For every mono output index, the floored source position stays strictly
below the input length (the skip branch of the mono loop is unreachable). -/
lemma mono_idx_lt (samples : List ℚ) (fr tr : Nat) (hf : 0 < fr)
    (ht : 0 < tr) (i : Nat) (hi : i < mono_output_len samples fr tr) :
    lin_idx fr tr i < samples.length := by
  have hr : 0 < lin_ratio fr tr := lin_ratio_pos hf ht
  unfold mono_output_len at hi
  unfold lin_idx
  set r := lin_ratio fr tr with hrdef
  have h1 : (i : ℤ) < ⌊(samples.length : ℚ) / r⌋ := Int.lt_toNat.mp hi
  have h2 : ((i : ℚ) + 1) ≤ ((⌊(samples.length : ℚ) / r⌋ : ℤ) : ℚ) := by
    exact_mod_cast Int.add_one_le_iff.mpr h1
  have hfl : ((⌊(samples.length : ℚ) / r⌋ : ℤ) : ℚ) ≤
      (samples.length : ℚ) / r := Int.floor_le _
  have hile : (i : ℚ) ≤ (samples.length : ℚ) / r - 1 := by linarith
  have hmul := mul_le_mul_of_nonneg_right hile hr.le
  rw [sub_mul, div_mul_cancel₀ _ (ne_of_gt hr), one_mul] at hmul
  have h3 : (i : ℚ) * r < (samples.length : ℚ) := by linarith
  have h4 : ⌊(i : ℚ) * r⌋ < ((samples.length : ℕ) : ℤ) :=
    Int.floor_lt.mpr (by exact_mod_cast h3)
  have h0 : (0 : ℤ) ≤ ⌊(i : ℚ) * r⌋ :=
    Int.floor_nonneg.mpr (mul_nonneg (Nat.cast_nonneg i) hr.le)
  omega

/-- The stereo loop emits exactly two samples per output frame. -/
lemma flatMap_pair_length (g : Nat → Nat → ℚ) (n : Nat) :
    ((List.range n).flatMap fun j => (List.range 2).map (g j)).length =
      2 * n := by
  rw [List.length_flatMap]
  have h : List.map (List.length ∘ fun j => (List.range 2).map (g j))
      (List.range n) = List.map (fun _ => 2) (List.range n) :=
    List.map_congr_left fun a _ => by simp
  rw [h, List.map_const', List.sum_replicate, List.length_range, smul_eq_mul,
    Nat.mul_comm]

/-- Element lookup in a flatMap of two-sample blocks. -/
lemma flatMap_pair_get (g : Nat → Nat → ℚ) (n i ch : Nat) (hi : i < n)
    (hch : ch < 2) :
    ((List.range n).flatMap fun j => (List.range 2).map (g j))[2 * i + ch]? =
      some (g i ch) := by
  induction n with
  | zero => exact absurd hi (Nat.not_lt_zero i)
  | succ n ihn =>
    rw [List.range_succ, List.flatMap_append]
    by_cases hi2 : i < n
    · rw [List.getElem?_append_left (by rw [flatMap_pair_length]; omega)]
      exact ihn hi2
    · have hieq : i = n := by omega
      subst hieq
      rw [List.getElem?_append_right (by rw [flatMap_pair_length]; omega)]
      rw [flatMap_pair_length]
      have hidx2 : 2 * i + ch - 2 * i = ch := by omega
      rw [hidx2]
      have hsingle : ([i].flatMap fun j => (List.range 2).map (g j)) =
          [g i 0, g i 1] := rfl
      rw [hsingle]
      interval_cases ch
      · rfl
      · rfl

/-- Stereo resampler length: twice the rounded output frame count. -/
lemma resample_linear_stereo_length (samples : List ℚ) (fr tr : Nat)
    (hne : fr ≠ tr) :
    (resample_linear_stereo samples fr tr).length =
      2 * stereo_output_frames samples fr tr := by
  unfold resample_linear_stereo
  rw [if_neg hne]
  exact flatMap_pair_length (stereo_val samples fr tr) _

lemma flatMap_eq_map_of_singleton {α : Type} {β : Type} (l : List α)
    (f : α → List β) (g : α → β) (h : ∀ a ∈ l, f a = [g a]) :
    l.flatMap f = l.map g := by
  induction l with
  | nil => rfl
  | cons x xs ih =>
    rw [List.flatMap_cons, h x (by simp),
      ih fun a ha => h a (by simp [ha]), List.map_cons, List.singleton_append]

/-- Each mono block is the singleton holding the pushed value (the empty
branch is unreachable for indices below the output length). -/
lemma mono_block_eq (samples : List ℚ) (fr tr : Nat) (hf : 0 < fr)
    (ht : 0 < tr) (i : Nat) (hi : i < mono_output_len samples fr tr) :
    mono_block samples fr tr i = [mono_val samples fr tr i] := by
  have hidx := mono_idx_lt samples fr tr hf ht i hi
  simp only [mono_block, mono_val]
  split_ifs with h1
  · rfl
  · rfl

/-- The mono resampler is pointwise `mono_val` over the output range. -/
lemma resample_linear_eq_map (samples : List ℚ) (fr tr : Nat) (hne : fr ≠ tr)
    (hf : 0 < fr) (ht : 0 < tr) :
    resample_linear samples fr tr =
      (List.range (mono_output_len samples fr tr)).map
        (mono_val samples fr tr) := by
  unfold resample_linear
  rw [if_neg hne]
  exact flatMap_eq_map_of_singleton _ _ _ fun i hi =>
    mono_block_eq samples fr tr hf ht i (List.mem_range.mp hi)

/-- Mono resampler length: the truncated (floored) quotient, not a rounding. -/
lemma resample_linear_length (samples : List ℚ) (fr tr : Nat) (hne : fr ≠ tr)
    (hf : 0 < fr) (ht : 0 < tr) :
    (resample_linear samples fr tr).length =
      mono_output_len samples fr tr := by
  rw [resample_linear_eq_map samples fr tr hne hf ht, List.length_map,
    List.length_range]

/-- C5's counterexample: resampling 5 mono samples from 48000 Hz to 16000 Hz
produces 1 output sample (truncation of 5/3), while the claimed formula
`round(input_frames / ratio)` gives `round(5/3) = 2`. -/
theorem c5_counterexample :
    ¬((resample_linear (List.replicate 5 (0 : ℚ)) 48000 16000).length =
      (round (((List.replicate 5 (0 : ℚ)).length : ℚ) /
        lin_ratio 48000 16000)).toNat) := by
  have hlhs :
      (resample_linear (List.replicate 5 (0 : ℚ)) 48000 16000).length = 1 := by
    rw [resample_linear_length _ _ _ (by decide) (by decide) (by decide)]
    unfold mono_output_len
    norm_num [lin_ratio]
  have hrhs : (round (((List.replicate 5 (0 : ℚ)).length : ℚ) /
      lin_ratio 48000 16000)).toNat = 2 := by
    norm_num [lin_ratio, round_eq]
    decide
  rw [hlhs, hrhs]
  decide

/-- C5 (amended): for `from_rate ≠ to_rate` (both positive), the stereo
variant emits `round(input_frames / ratio)` output frames (twice that many
samples), but the mono variant emits `trunc(len / ratio)` samples — a
truncation, not a rounding. -/
theorem c5_output_length_amended (samples : List ℚ) (fr tr : Nat)
    (hne : fr ≠ tr) (hf : 0 < fr) (ht : 0 < tr) :
    (resample_linear_stereo samples fr tr).length =
      2 * (round (((samples.length / 2 : Nat) : ℚ) /
        lin_ratio fr tr)).toNat ∧
    (resample_linear samples fr tr).length =
      (⌊(samples.length : ℚ) / lin_ratio fr tr⌋).toNat :=
  ⟨resample_linear_stereo_length samples fr tr hne,
   resample_linear_length samples fr tr hne hf ht⟩

/-- Witness for the amended C5 at a concrete input: 5 samples, 48000 → 16000,
giving 2 stereo samples (1 frame) and 1 mono sample. -/
theorem c5_witness :
    (resample_linear_stereo (List.replicate 5 (0 : ℚ)) 48000 16000).length =
      2 * (round ((((List.replicate 5 (0 : ℚ)).length / 2 : Nat) : ℚ) /
        lin_ratio 48000 16000)).toNat ∧
    (resample_linear (List.replicate 5 (0 : ℚ)) 48000 16000).length =
      (⌊((List.replicate 5 (0 : ℚ)).length : ℚ) /
        lin_ratio 48000 16000⌋).toNat :=
  c5_output_length_amended (List.replicate 5 (0 : ℚ)) 48000 16000 (by decide)
    (by decide) (by decide)

/-- C6: in both linear resamplers (rates distinct and positive; the stereo
input obeying the even-length sample-block invariant), every produced output
element is `stereo_val` / `mono_val`; when the source position's bracketing
frame extends past the last input frame the value clamps to the last
available sample of that channel (no zero substitution, no extrapolation),
and interior outputs are the linear interpolation of the two bracketing
input frames. -/
theorem c6_end_clamps_and_interior_interpolates (samples : List ℚ)
    (fr tr : Nat) (i ch : Nat) (hne : fr ≠ tr) (hf : 0 < fr) (ht : 0 < tr) :
    (2 ∣ samples.length → i < stereo_output_frames samples fr tr → ch < 2 →
      (resample_linear_stereo samples fr tr)[2 * i + ch]? =
          some (stereo_val samples fr tr i ch) ∧
        (samples.length / 2 ≤ lin_idx fr tr i + 1 →
          stereo_val samples fr tr i ch =
            samples.getD ((samples.length / 2 - 1) * 2 + ch) 0) ∧
        (lin_idx fr tr i + 1 < samples.length / 2 →
          stereo_val samples fr tr i ch =
            samples.getD (lin_idx fr tr i * 2 + ch) 0 *
                (1 - lin_frac fr tr i) +
              samples.getD ((lin_idx fr tr i + 1) * 2 + ch) 0 *
                lin_frac fr tr i)) ∧
    (i < mono_output_len samples fr tr →
      (resample_linear samples fr tr)[i]? =
          some (mono_val samples fr tr i) ∧
        (samples.length ≤ lin_idx fr tr i + 1 →
          mono_val samples fr tr i = samples.getD (samples.length - 1) 0) ∧
        (lin_idx fr tr i + 1 < samples.length →
          mono_val samples fr tr i =
            samples.getD (lin_idx fr tr i) 0 * (1 - lin_frac fr tr i) +
              samples.getD (lin_idx fr tr i + 1) 0 * lin_frac fr tr i)) := by
  constructor
  · intro heven hi hch
    have hidx := stereo_idx_lt samples fr tr hf ht i hi
    refine ⟨?_, ?_, ?_⟩
    · unfold resample_linear_stereo
      rw [if_neg hne]
      exact flatMap_pair_get (stereo_val samples fr tr) _ i ch hi hch
    · intro hub
      have hidx1 : lin_idx fr tr i = samples.length / 2 - 1 := by omega
      have hout : samples.length ≤ (lin_idx fr tr i + 1) * 2 + ch := by omega
      simp only [stereo_val]
      rw [List.getElem?_eq_none hout]
      simp only [Option.getD_none]
      rw [hidx1]
      ring
    · intro hlt
      have hin : (lin_idx fr tr i + 1) * 2 + ch < samples.length := by omega
      simp only [stereo_val]
      rw [List.getElem?_eq_getElem hin]
      simp only [Option.getD_some]
      have hgd : samples.getD ((lin_idx fr tr i + 1) * 2 + ch) 0 =
          samples[(lin_idx fr tr i + 1) * 2 + ch] := by
        rw [List.getD_eq_getElem?_getD, List.getElem?_eq_getElem hin]
        rfl
      rw [hgd]
  · intro hi
    have hidx := mono_idx_lt samples fr tr hf ht i hi
    refine ⟨?_, ?_, ?_⟩
    · rw [resample_linear_eq_map samples fr tr hne hf ht, List.getElem?_map,
        List.getElem?_range hi]
      rfl
    · intro hub
      have hidx1 : lin_idx fr tr i = samples.length - 1 := by omega
      simp only [mono_val]
      rw [if_neg (by omega), hidx1]
    · intro hlt
      simp only [mono_val]
      rw [if_pos hlt]

/-- Witness for C6 at a concrete input: upsampling `[1, 2]` from 16000 Hz to
48000 Hz, output frame 2's source position brackets past the last input
frame, and the left-channel value clamps to the last left sample. -/
theorem c6_witness :
    (resample_linear_stereo [1, 2] 16000 48000)[2 * 2 + 0]? =
        some (stereo_val [1, 2] 16000 48000 2 0) ∧
      stereo_val [1, 2] 16000 48000 2 0 =
        ([1, 2] : List ℚ).getD
          ((([1, 2] : List ℚ).length / 2 - 1) * 2 + 0) 0 := by
  have hi : 2 < stereo_output_frames [1, 2] 16000 48000 := by
    unfold stereo_output_frames
    norm_num [lin_ratio, round_eq]
  have h := (c6_end_clamps_and_interior_interpolates [1, 2] 16000 48000 2 0
    (by decide) (by decide) (by decide)).1 (by decide) hi (by decide)
  have hub : ([1, 2] : List ℚ).length / 2 ≤ lin_idx 16000 48000 2 + 1 := by
    unfold lin_idx
    norm_num [lin_ratio]
  exact ⟨h.1, h.2.1 hub⟩

end GodotWhisper
